import Mathlib

/-!
Verification development for the dominant color extraction pipeline of the
factory-planner repository.  The Python sources (calculate_colors.py and
scripts/patch_icons.py) are embedded shallowly: machine floats are idealized
as exact rationals, the Python int builtin (truncation toward zero) is
modelled explicitly, and the per pixel loops become folds over pixel lists.
-/

set_option maxRecDepth 8000

/-- Truncation toward zero, the behaviour of the Python int builtin applied
to a rational value. -/
def pytrunc (x : ℚ) : ℤ := if x < 0 then -(Int.floor (-x)) else Int.floor x

/-- Python float modulo with modulus one: the fractional part of a rational,
always at least zero and strictly below one. -/
def fmod1 (x : ℚ) : ℚ := x - Int.floor x

/-- Shallow embedding of colorsys.rgb_to_hls over exact rationals.  The
arguments are channel values scaled to the unit interval and the result is
the triple (h, l, s), exactly as in the Python library function. -/
def rgb_to_hls (r g b : ℚ) : ℚ × ℚ × ℚ :=
  let maxc := max r (max g b)
  let minc := min r (min g b)
  let sumc := maxc + minc
  let rangec := maxc - minc
  let l := sumc / 2
  if minc = maxc then (0, l, 0)
  else
    let s := if l ≤ 1 / 2 then rangec / sumc else rangec / (2 - sumc)
    let rc := (maxc - r) / rangec
    let gc := (maxc - g) / rangec
    let bc := (maxc - b) / rangec
    let h := if r = maxc then bc - gc else if g = maxc then 2 + rc - bc else 4 + gc - rc
    (fmod1 (h / 6), l, s)

/-- Shallow embedding of the colorsys helper that interpolates one output
channel of hls_to_rgb. -/
def hlsV (m1 m2 hue : ℚ) : ℚ :=
  let hue2 := fmod1 hue
  if hue2 < 1 / 6 then m1 + (m2 - m1) * hue2 * 6
  else if hue2 < 1 / 2 then m2
  else if hue2 < 2 / 3 then m1 + (m2 - m1) * (2 / 3 - hue2) * 6
  else m1

/-- Shallow embedding of colorsys.hls_to_rgb over exact rationals. -/
def hls_to_rgb (h l s : ℚ) : ℚ × ℚ × ℚ :=
  if s = 0 then (l, l, l)
  else
    let m2 := if l ≤ 1 / 2 then l * (1 + s) else l + s - l * s
    let m1 := 2 * l - m2
    (hlsV m1 m2 (h + 1 / 3), hlsV m1 m2 h, hlsV m1 m2 (h - 1 / 3))

/-- Pixel as sampled from the atlas: three color channels and alpha. -/
structure Pixel where
  r : ℕ
  g : ℕ
  b : ℕ
  a : ℕ
deriving DecidableEq, Repr

/-- Entry of a hue bucket: the integer channels together with the saturation
and lightness of the pixel, mirroring the Python tuple (r, g, b, s, l). -/
structure BPix where
  r : ℕ
  g : ℕ
  b : ℕ
  s : ℚ
  l : ℚ
deriving DecidableEq, Repr

/-- Entry of the grey pool, mirroring the Python tuple (r, g, b, l). -/
structure GPix where
  r : ℕ
  g : ℕ
  b : ℕ
  l : ℚ
deriving DecidableEq, Repr

/-- Output of the hue classification loop of calculate_average_color: the 36
hue buckets, the grey pool and the count of opaque pixels. -/
structure ClassOut where
  buckets : List (List BPix)
  greys : List GPix
  total : ℕ
deriving DecidableEq, Repr

/-- Bucket index computation from line 42 of calculate_colors.py: the Python
expression int(h * 36) % 36. -/
def hue_idx (h : ℚ) : ℕ := ((pytrunc (h * 36)) % 36).toNat

/-- One iteration of the pixel classification loop of calculate_average_color
(lines 28 to 43 of calculate_colors.py). -/
def classifyStep (st : ClassOut) (p : Pixel) : ClassOut :=
  if p.a < 64 then st
  else
    let total := st.total + 1
    let hls := rgb_to_hls ((p.r : ℚ) / 255) ((p.g : ℚ) / 255) ((p.b : ℚ) / 255)
    let h := hls.1
    let l := hls.2.1
    let s := hls.2.2
    if l < 1 / 10 ∨ 19 / 20 < l then { st with total := total }
    else if s < 1 / 5 then
      { st with total := total, greys := st.greys ++ [⟨p.r, p.g, p.b, l⟩] }
    else
      let i := hue_idx h
      { st with total := total,
                buckets := st.buckets.set i (st.buckets.getD i [] ++ [⟨p.r, p.g, p.b, s, l⟩]) }

/-- Initial classification state: 36 empty buckets, empty grey pool, zero
opaque pixels. -/
def initState : ClassOut := ⟨List.replicate 36 [], [], 0⟩

/-- The hue classification loop of calculate_average_color, as a fold over
the row major pixel list of the icon crop. -/
def classify (ps : List Pixel) : ClassOut := ps.foldl classifyStep initState

/-- Strength of a bucket: the sum of the saturations of its members (line 53
of calculate_colors.py). -/
def strength (bkt : List BPix) : ℚ := (bkt.map BPix.s).sum

/-- One iteration of the bucket scan of calculate_average_color (lines 50 to
56): accumulate the colored pixel count and keep the first bucket whose
strength strictly exceeds the running maximum. -/
def stepSel (buckets : List (List BPix)) (acc : ℤ × ℚ × ℕ) (i : ℕ) : ℤ × ℚ × ℕ :=
  if acc.2.1 < strength (buckets.getD i []) then
    ((i : ℤ), strength (buckets.getD i []), acc.2.2 + (buckets.getD i []).length)
  else (acc.1, acc.2.1, acc.2.2 + (buckets.getD i []).length)

/-- The bucket scan of calculate_average_color: starting from best equal to
minus one, maximum strength zero and colored count zero, fold over the 36
bucket indices.  The result is (best_bucket, max_strength,
total_colored_pixels). -/
def selectLoop (buckets : List (List BPix)) : ℤ × ℚ × ℕ :=
  (List.range 36).foldl (stepSel buckets) (-1, 0, 0)

/-- The prime color computation of the accepted branch of
calculate_average_color (lines 62 to 72): per channel arithmetic mean of the
bucket members, conversion to HLS, saturation boost capped at one, lightness
override to 0.55, conversion back to RGB and truncation of each channel. -/
def primeColor (bPixels : List BPix) : ℤ × ℤ × ℤ :=
  let avgR : ℚ := ((bPixels.map fun p => (p.r : ℚ)).sum) / (bPixels.length : ℚ)
  let avgG : ℚ := ((bPixels.map fun p => (p.g : ℚ)).sum) / (bPixels.length : ℚ)
  let avgB : ℚ := ((bPixels.map fun p => (p.b : ℚ)).sum) / (bPixels.length : ℚ)
  let hls := rgb_to_hls (avgR / 255) (avgG / 255) (avgB / 255)
  let s := min 1 (hls.2.2 * (3 / 2))
  let l : ℚ := 11 / 20
  let rgb := hls_to_rgb hls.1 l s
  (pytrunc (rgb.1 * 255), pytrunc (rgb.2.1 * 255), pytrunc (rgb.2.2 * 255))

/-- The fall through part of calculate_average_color (lines 74 to 82): if the
grey pool is non empty return a flat grey computed as int(0.65 * 255) in each
channel, otherwise no result.  The average lightness of the grey pool is
computed by the source but never used. -/
def greyOrNone (co : ClassOut) : Option (ℤ × ℤ × ℤ) × ℕ :=
  if co.greys ≠ [] then
    let avgL : ℚ := ((co.greys.map GPix.l).sum) / (co.greys.length : ℚ)
    let v := pytrunc ((13 / 20 : ℚ) * 255)
    ((fun _ => some (v, v, v)) avgL, co.total)
  else (none, co.total)

/-- Shallow embedding of calculate_average_color of calculate_colors.py,
taking the classifier output and producing the optional color triple and the
opaque pixel count. -/
def calculate_average_color (co : ClassOut) : Option (ℤ × ℤ × ℤ) × ℕ :=
  if (selectLoop co.buckets).1 ≠ -1 ∧
      ((selectLoop co.buckets).2.2 : ℚ) > (co.total : ℚ) * (3 / 20) then
    (some (primeColor (co.buckets.getD (selectLoop co.buckets).1.toNat [])), co.total)
  else greyOrNone co

/-- Lowercase hexadecimal digit for a value below 16. -/
def hexDigit (n : ℕ) : Char := if n < 10 then Char.ofNat (48 + n) else Char.ofNat (87 + n)

/-- Two digit lowercase hexadecimal rendering of a byte value, as produced by
the Python format specifier 02x for values below 256. -/
def hex2 (n : ℕ) : String := String.mk [hexDigit (n / 16 % 16), hexDigit (n % 16)]

/-- Hex color string built by main of calculate_colors.py from a channel
triple. -/
def hexColor (c : ℤ × ℤ × ℤ) : String :=
  "#" ++ hex2 c.1.toNat ++ hex2 c.2.1.toNat ++ hex2 c.2.2.toNat

/-- Manifest item as read by main of calculate_colors.py. -/
structure Item where
  id : String
  name : String
  iconIndex : ℕ
deriving DecidableEq, Repr

/-- Abstraction of the decoded sprite sheet: its pixel height together with
the row major pixel list of the 64 by 64 crop at a given upper left
coordinate.  Cropping and decoding are external collaborators of the
specification and are kept abstract. -/
structure Sprite where
  height : ℕ
  cropPixels : ℕ → ℕ → List Pixel

/-- Diagnostic entry recorded by main of calculate_colors.py for an
irregular item. -/
inductive Diag where
  | outOfBounds (idx : ℕ) (name : String) (height : ℕ)
  | noValidPixels (name : String) (id : String) (idx : ℕ) (nonTrans : ℕ)
deriving DecidableEq, Repr

/-- Insertion into the id to color mapping with Python dict semantics: an
existing binding of the key is replaced, otherwise the pair is appended. -/
def insertColor : List (String × String) → String → String → List (String × String)
  | [], k, v => [(k, v)]
  | (k2, v2) :: rest, k, v =>
      if k2 = k then (k, v) :: rest else (k2, v2) :: insertColor rest k v

/-- One iteration of the item loop of main (lines 96 to 114 of
calculate_colors.py): bounds check with an out of bounds diagnostic, then
extraction, recording either a hex color or a no valid pixels diagnostic. -/
def processItem (sp : Sprite) (acc : List (String × String) × List Diag)
    (item : Item) : List (String × String) × List Diag :=
  let sx := (item.iconIndex % 23) * 64
  let sy := (item.iconIndex / 23) * 64
  if sp.height < sy + 64 then
    (acc.1, acc.2 ++ [Diag.outOfBounds item.iconIndex item.name sp.height])
  else
    let res := calculate_average_color (classify (sp.cropPixels sx sy))
    match res.1 with
    | some c => (insertColor acc.1 item.id (hexColor c), acc.2)
    | none => (acc.1, acc.2 ++ [Diag.noValidPixels item.name item.id item.iconIndex res.2])

/-- The item loop of main as a fold, starting from a given accumulated
mapping and diagnostics list. -/
def walkItems (sp : Sprite) (items : List Item)
    (acc : List (String × String) × List Diag) : List (String × String) × List Diag :=
  items.foldl (processItem sp) acc

/-- The whole run of main over a manifest: empty mapping and empty
diagnostics at the start. -/
def mainColors (sp : Sprite) (items : List Item) : List (String × String) × List Diag :=
  walkItems sp items ([], [])

/-- Item of the dsp.json document as touched by scripts/patch_icons.py: the
optional id, the optional iconIndex, and the remaining payload of the item
kept fully abstract. -/
structure JItem (β : Type) where
  id : Option String
  iconIndex : Option ℤ
  rest : β
deriving DecidableEq, Repr

/-- Document shape for scripts/patch_icons.py: the items list plus all the
content outside the items list, kept fully abstract. -/
structure Doc (α β : Type) where
  items : List (JItem β)
  other : α
deriving DecidableEq, Repr

/-- Association list lookup with decidable string equality, modelling Python
dict membership and subscription on the mappings dict. -/
def lookupKey (m : List (String × ℤ)) (k : String) : Option ℤ :=
  match m with
  | [] => none
  | (k2, v) :: rest => if k2 = k then some v else lookupKey rest k

/-- One iteration of the item loop of scripts/patch_icons.py: when the id of
the item is a key of the mappings dict, overwrite iconIndex with the mapped
value and count one update, otherwise leave the item untouched. -/
def patchItem (m : List (String × ℤ)) (it : JItem β) : JItem β × ℕ :=
  match it.id with
  | none => (it, 0)
  | some k =>
    match lookupKey m k with
    | none => (it, 0)
    | some v => ({ it with iconIndex := some v }, 1)

/-- The item loop of scripts/patch_icons.py over the whole items list,
returning the patched list and updated_count. -/
def patchItems (m : List (String × ℤ)) (items : List (JItem β)) : List (JItem β) × ℕ :=
  items.foldl (fun acc it =>
    let r := patchItem m it
    (acc.1 ++ [r.1], acc.2 + r.2)) ([], 0)

/-- Action of scripts/patch_icons.py on the whole document: the items list is
patched in place and everything outside it is untouched. -/
def patchDoc (m : List (String × ℤ)) (d : Doc α β) : Doc α β × ℕ :=
  let r := patchItems m d.items
  ({ d with items := r.1 }, r.2)

/-- The literal mappings dict of scripts/patch_icons.py. -/
def mappings : List (String × ℤ) := [("grating-crystal", 11)]

/-- Definition following the words of claim C2: the prime color with each
channel rounded to the nearest integer instead of truncated.  This is the
spec side formula whose comparison against primeColor settles the claim. -/
def specPrimeColorRounded (bPixels : List BPix) : ℤ × ℤ × ℤ :=
  let avgR : ℚ := ((bPixels.map fun p => (p.r : ℚ)).sum) / (bPixels.length : ℚ)
  let avgG : ℚ := ((bPixels.map fun p => (p.g : ℚ)).sum) / (bPixels.length : ℚ)
  let avgB : ℚ := ((bPixels.map fun p => (p.b : ℚ)).sum) / (bPixels.length : ℚ)
  let hls := rgb_to_hls (avgR / 255) (avgG / 255) (avgB / 255)
  let s := min 1 (hls.2.2 * (3 / 2))
  let l : ℚ := 11 / 20
  let rgb := hls_to_rgb hls.1 l s
  (round (rgb.1 * 255), round (rgb.2.1 * 255), round (rgb.2.2 * 255))

/-- Definition following the words of the amended claim C2: per channel
arithmetic mean of the bucket members, conversion to HLS, lightness
overridden to 0.55, saturation multiplied by 1.5 and capped at 1, hue
unchanged, conversion back to RGB, each channel truncated toward zero. -/
def specPrimeColorTruncated (bPixels : List BPix) : ℤ × ℤ × ℤ :=
  let avgR : ℚ := ((bPixels.map fun p => (p.r : ℚ)).sum) / (bPixels.length : ℚ)
  let avgG : ℚ := ((bPixels.map fun p => (p.g : ℚ)).sum) / (bPixels.length : ℚ)
  let avgB : ℚ := ((bPixels.map fun p => (p.b : ℚ)).sum) / (bPixels.length : ℚ)
  let hls := rgb_to_hls (avgR / 255) (avgG / 255) (avgB / 255)
  let newS := min 1 (hls.2.2 * (3 / 2))
  let newL : ℚ := 11 / 20
  let rgb := hls_to_rgb hls.1 newL newS
  (pytrunc (rgb.1 * 255), pytrunc (rgb.2.1 * 255), pytrunc (rgb.2.2 * 255))

/-- Partial bucket scan over the first n indices, used to state the loop
invariant of the scan of calculate_average_color. -/
def scanTo (B : List (List BPix)) (n : ℕ) : ℤ × ℚ × ℕ :=
  (List.range n).foldl (stepSel B) (-1, 0, 0)

lemma scanTo_succ (B : List (List BPix)) (n : ℕ) :
    scanTo B (n + 1) = stepSel B (scanTo B n) n := by
  simp [scanTo, List.range_succ]

lemma selectLoop_eq_scanTo (B : List (List BPix)) : selectLoop B = scanTo B 36 := rfl

/-- Loop invariant of the bucket scan: the third component accumulates the
bucket sizes, the running maximum is nonnegative and bounds every strength
seen so far, and the best index is either still minus one with maximum zero,
or the first index attaining the (positive) running maximum. -/
lemma scanTo_spec (B : List (List BPix)) (n : ℕ) :
    (scanTo B n).2.2 = ((List.range n).map fun i => (B.getD i []).length).sum ∧
    0 ≤ (scanTo B n).2.1 ∧
    (∀ i, i < n → strength (B.getD i []) ≤ (scanTo B n).2.1) ∧
    (((scanTo B n).1 = -1 ∧ (scanTo B n).2.1 = 0) ∨
      ∃ k, k < n ∧ (scanTo B n).1 = (k : ℤ) ∧
        strength (B.getD k []) = (scanTo B n).2.1 ∧ 0 < (scanTo B n).2.1 ∧
        ∀ j, j < k → strength (B.getD j []) < (scanTo B n).2.1) := by
  induction n with
  | zero =>
    refine ⟨rfl, le_refl 0, ?_, Or.inl ⟨rfl, rfl⟩⟩
    intro i hi
    exact absurd hi (Nat.not_lt_zero i)
  | succ n ih =>
    obtain ⟨ht, hm0, hub, hcase⟩ := ih
    have hsum : ((List.range (n + 1)).map fun i => (B.getD i []).length).sum
        = ((List.range n).map fun i => (B.getD i []).length).sum + (B.getD n []).length := by
      rw [List.range_succ, List.map_append, List.sum_append]
      simp
    by_cases h : (scanTo B n).2.1 < strength (B.getD n [])
    · have hstep : scanTo B (n + 1)
          = ((n : ℤ), strength (B.getD n []), (scanTo B n).2.2 + (B.getD n []).length) := by
        rw [scanTo_succ]
        simp only [stepSel]
        rw [if_pos h]
      rw [hstep]
      refine ⟨?_, ?_, ?_, ?_⟩
      · show (scanTo B n).2.2 + (B.getD n []).length = _
        rw [hsum, ht]
      · exact le_of_lt (lt_of_le_of_lt hm0 h)
      · intro i hi
        rcases Nat.lt_succ_iff_lt_or_eq.mp hi with hi2 | hi2
        · exact le_of_lt (lt_of_le_of_lt (hub i hi2) h)
        · subst hi2; exact le_refl _
      · refine Or.inr ⟨n, Nat.lt_succ_self n, rfl, rfl, lt_of_le_of_lt hm0 h, ?_⟩
        intro j hj
        exact lt_of_le_of_lt (hub j hj) h
    · have hstep : scanTo B (n + 1)
          = ((scanTo B n).1, (scanTo B n).2.1, (scanTo B n).2.2 + (B.getD n []).length) := by
        rw [scanTo_succ]
        simp only [stepSel]
        rw [if_neg h]
      rw [hstep]
      refine ⟨?_, hm0, ?_, ?_⟩
      · show (scanTo B n).2.2 + (B.getD n []).length = _
        rw [hsum, ht]
      · intro i hi
        rcases Nat.lt_succ_iff_lt_or_eq.mp hi with hi2 | hi2
        · exact hub i hi2
        · subst hi2; exact not_lt.mp h
      · rcases hcase with h1 | ⟨k, hk, h2, h3, h4, h5⟩
        · exact Or.inl h1
        · exact Or.inr ⟨k, Nat.lt_succ_of_lt hk, h2, h3, h4, h5⟩

/-- The colored pixel count produced by the scan is the total size of the 36
buckets. -/
lemma selectLoop_total (B : List (List BPix)) :
    (selectLoop B).2.2 = ((List.range 36).map fun i => (B.getD i []).length).sum := by
  rw [selectLoop_eq_scanTo]
  exact (scanTo_spec B 36).1

/-- The scan leaves best_bucket at minus one exactly when no bucket has
positive strength. -/
lemma selectLoop_neg_iff (B : List (List BPix)) :
    (selectLoop B).1 = -1 ↔ ∀ i, i < 36 → strength (B.getD i []) ≤ 0 := by
  rw [selectLoop_eq_scanTo]
  constructor
  · intro h i hi
    rcases (scanTo_spec B 36).2.2.2 with ⟨_, h2⟩ | ⟨k, _, hbest, _, _, _⟩
    · have h3 := (scanTo_spec B 36).2.2.1 i hi
      rw [h2] at h3
      exact h3
    · rw [hbest] at h
      exact absurd h (by omega)
  · intro hall
    rcases (scanTo_spec B 36).2.2.2 with ⟨h1, _⟩ | ⟨k, hk, _, hstr, hpos, _⟩
    · exact h1
    · have := hall k hk
      rw [hstr] at this
      exact absurd hpos (not_lt.mpr this)

/-- When some bucket attains a positive maximal strength, the scan returns
the least index attaining it, and the running maximum is that strength. -/
lemma selectLoop_least (B : List (List BPix)) (M : ℚ) (hM : 0 < M)
    (hub : ∀ t, t < 36 → strength (B.getD t []) ≤ M)
    (k : ℕ) (hk : k < 36) (hkM : strength (B.getD k []) = M)
    (hleast : ∀ t, t < k → strength (B.getD t []) ≠ M) :
    (selectLoop B).1 = (k : ℤ) ∧ (selectLoop B).2.1 = M := by
  rw [selectLoop_eq_scanTo]
  rcases (scanTo_spec B 36).2.2.2 with ⟨_, h2⟩ | ⟨k0, hk0, hbest, hstr, hpos, hfirst⟩
  · have h3 := (scanTo_spec B 36).2.2.1 k hk
    rw [h2, hkM] at h3
    exact absurd hM (not_lt.mpr h3)
  · have hmle : (scanTo B 36).2.1 ≤ M := by
      rw [← hstr]
      exact hub k0 hk0
    have hMle : M ≤ (scanTo B 36).2.1 := by
      rw [← hkM]
      exact (scanTo_spec B 36).2.2.1 k hk
    have hmM : (scanTo B 36).2.1 = M := le_antisymm hmle hMle
    have hkk0 : k = k0 := by
      rcases lt_trichotomy k k0 with hlt | heq | hgt
      · have := hfirst k hlt
        rw [hkM, hmM] at this
        exact absurd this (lt_irrefl M)
      · exact heq
      · have := hleast k0 hgt
        rw [hstr, hmM] at this
        exact absurd rfl this
    subst hkk0
    exact ⟨hbest, hmM⟩

/-- When best_bucket is not minus one, it names an index below 36 whose
bucket has positive strength. -/
lemma selectLoop_ne_neg (B : List (List BPix)) (h : (selectLoop B).1 ≠ -1) :
    ∃ k : ℕ, k < 36 ∧ (selectLoop B).1 = (k : ℤ) ∧ 0 < strength (B.getD k []) := by
  rw [selectLoop_eq_scanTo] at h ⊢
  rcases (scanTo_spec B 36).2.2.2 with ⟨h1, _⟩ | ⟨k, hk, hbest, hstr, hpos, _⟩
  · exact absurd h1 h
  · exact ⟨k, hk, hbest, by rw [hstr]; exact hpos⟩

/-- Strength of the empty bucket is zero. -/
lemma strength_nil : strength ([] : List BPix) = 0 := rfl

/-- A non empty bucket all of whose members carry saturation at least one
fifth has positive strength. -/
lemma strength_pos (bkt : List BPix) (hs : ∀ p ∈ bkt, (1 : ℚ) / 5 ≤ p.s)
    (hne : bkt ≠ []) : 0 < strength bkt := by
  cases bkt with
  | nil => exact absurd rfl hne
  | cons p rest =>
    have hrest : 0 ≤ (rest.map BPix.s).sum := by
      apply List.sum_nonneg
      intro x hx
      rcases List.mem_map.mp hx with ⟨q, hq, hqx⟩
      have := hs q (List.mem_cons_of_mem p hq)
      rw [← hqx]
      linarith
    have hp := hs p (List.mem_cons_self p rest)
    have : strength (p :: rest) = p.s + (rest.map BPix.s).sum := by
      simp [strength]
    rw [this]
    linarith

/-- Classifier invariant: there are exactly 36 buckets and every bucket
member carries saturation at least one fifth (the threshold of line 39 of
calculate_colors.py). -/
def BucketsOK (st : ClassOut) : Prop :=
  st.buckets.length = 36 ∧ ∀ bkt ∈ st.buckets, ∀ p ∈ bkt, (1 : ℚ) / 5 ≤ p.s

lemma bucketsOK_step (st : ClassOut) (p : Pixel) (h : BucketsOK st) :
    BucketsOK (classifyStep st p) := by
  obtain ⟨hlen, hmem⟩ := h
  unfold classifyStep
  split
  · exact ⟨hlen, hmem⟩
  · dsimp only
    split
    · exact ⟨hlen, hmem⟩
    · split
      · exact ⟨hlen, hmem⟩
      · next hsat =>
        constructor
        · simpa using hlen
        · intro bkt hbkt
          rcases List.mem_or_eq_of_mem_set hbkt with h1 | h1
          · exact hmem bkt h1
          · subst h1
            intro q hq
            rcases List.mem_append.mp hq with h2 | h2
            · by_cases hi : hue_idx (rgb_to_hls ((p.r : ℚ) / 255) ((p.g : ℚ) / 255)
                  ((p.b : ℚ) / 255)).1 < st.buckets.length
              · have hgd : st.buckets.getD (hue_idx (rgb_to_hls ((p.r : ℚ) / 255)
                    ((p.g : ℚ) / 255) ((p.b : ℚ) / 255)).1) [] ∈ st.buckets := by
                  rw [List.getD_eq_getElem st.buckets [] hi]
                  exact List.getElem_mem hi
                exact hmem _ hgd q h2
              · rw [List.getD_eq_default st.buckets [] (le_of_not_lt hi)] at h2
                exact absurd h2 (List.not_mem_nil q)
            · rcases List.mem_singleton.mp h2 with rfl
              exact le_of_not_lt hsat

/-- Folding the classifier over any pixel list preserves the invariant. -/
lemma foldl_bucketsOK (ps : List Pixel) :
    ∀ st : ClassOut, BucketsOK st → BucketsOK (ps.foldl classifyStep st) := by
  induction ps with
  | nil => intro st h; exact h
  | cons p ps ih =>
    intro st h
    exact ih _ (bucketsOK_step st p h)

/-- Output of classify satisfies the bucket invariant. -/
lemma classify_bucketsOK (ps : List Pixel) : BucketsOK (classify ps) := by
  apply foldl_bucketsOK
  constructor
  · simp [initState]
  · intro bkt hbkt
    have := List.eq_of_mem_replicate hbkt
    subst this
    intro q hq
    exact absurd hq (List.not_mem_nil q)

/-- Pixels below the alpha threshold are ignored by the classifier fold, for
any starting state. -/
lemma classify_filter_aux : ∀ (ps : List Pixel) (st : ClassOut),
    (ps.filter fun p => decide (64 ≤ p.a)).foldl classifyStep st = ps.foldl classifyStep st := by
  intro ps
  induction ps with
  | nil => intro st; rfl
  | cons p ps ih =>
    intro st
    by_cases h : 64 ≤ p.a
    · have hd : (decide (64 ≤ p.a)) = true := decide_eq_true h
      rw [List.filter_cons, if_pos hd, List.foldl_cons, List.foldl_cons]
      exact ih (classifyStep st p)
    · have hstep : classifyStep st p = st := by
        unfold classifyStep
        rw [if_pos (Nat.lt_of_not_le h)]
      have hd : (decide (64 ≤ p.a)) = false := decide_eq_false h
      rw [List.filter_cons, if_neg (by rw [hd]; exact Bool.false_ne_true), List.foldl_cons, hstep]
      exact ih st

/-- Claim C1: the dominant hue (prime color) path is taken exactly when a
best bucket exists and the colored pixel count strictly exceeds 0.15 times
the opaque pixel count; at exact equality the grey or no result path is
taken. -/
theorem claim1_coverage_guard (co : ClassOut) :
    ((selectLoop co.buckets).1 ≠ -1 ∧
        ((selectLoop co.buckets).2.2 : ℚ) > (co.total : ℚ) * (3 / 20) →
      calculate_average_color co =
        (some (primeColor (co.buckets.getD (selectLoop co.buckets).1.toNat [])), co.total)) ∧
    (¬((selectLoop co.buckets).1 ≠ -1 ∧
        ((selectLoop co.buckets).2.2 : ℚ) > (co.total : ℚ) * (3 / 20)) →
      calculate_average_color co = greyOrNone co) ∧
    (((selectLoop co.buckets).2.2 : ℚ) = (co.total : ℚ) * (3 / 20) →
      calculate_average_color co = greyOrNone co) := by
  refine ⟨?_, ?_, ?_⟩
  · intro h
    unfold calculate_average_color
    rw [if_pos h]
  · intro h
    unfold calculate_average_color
    rw [if_neg h]
  · intro h
    unfold calculate_average_color
    rw [if_neg]
    intro hc
    have h2 := hc.2
    rw [h] at h2
    exact lt_irrefl _ h2

/-- Every bucket of a replicated empty bucket list is empty. -/
lemma getD_replicate_nil (k i : ℕ) :
    (List.replicate k ([] : List BPix)).getD i [] = [] := by
  induction k generalizing i with
  | zero => rfl
  | succ k ih =>
    cases i with
    | zero => rfl
    | succ i => exact ih i

set_option maxRecDepth 4000 in
/-- Witness for claim C1: a classifier output whose colored count equals the
threshold exactly (zero colored pixels, zero opaque pixels) is routed to the
grey or no result path, here no result. -/
theorem claim1_coverage_guard_witness :
    calculate_average_color ⟨List.replicate 36 [], [], 0⟩ = (none, 0) := by
  have hsum : ((List.range 36).map fun i =>
      ((List.replicate 36 ([] : List BPix)).getD i []).length).sum = 0 := by
    apply List.sum_eq_zero
    intro x hx
    rcases List.mem_map.mp hx with ⟨i, _, rfl⟩
    rw [getD_replicate_nil]
    rfl
  have h := (claim1_coverage_guard ⟨List.replicate 36 [], [], 0⟩).2.2 (by
    show ((selectLoop (List.replicate 36 [])).2.2 : ℚ) = ((0 : ℕ) : ℚ) * (3 / 20)
    rw [selectLoop_total, hsum]
    norm_num)
  rw [h]
  show greyOrNone _ = (none, 0)
  simp [greyOrNone]

/-- Computation rule for pytrunc on a nonnegative rational with known
integer bounds. -/
lemma pytrunc_nonneg_eq (x : ℚ) (n : ℤ) (h0 : 0 ≤ x) (h1 : (n : ℚ) ≤ x)
    (h2 : x < n + 1) : pytrunc x = n := by
  unfold pytrunc
  rw [if_neg (not_lt.mpr h0)]
  exact Int.floor_eq_iff.mpr ⟨h1, h2⟩

/-- Claim C4: the bucket index never leaves the range 0 to 35, the hue
999999 over 1000000 lands in bucket 35 and a hue that wrapped exactly to one
lands in bucket 0. -/
theorem claim4_bucket_range :
    (∀ h : ℚ, 0 ≤ h → h < 1 → hue_idx h ≤ 35) ∧
    hue_idx (999999 / 1000000) = 35 ∧ hue_idx 1 = 0 := by
  refine ⟨?_, ?_, ?_⟩
  · intro h _ _
    unfold hue_idx
    have h2 := Int.emod_nonneg (pytrunc (h * 36)) (by norm_num : (36 : ℤ) ≠ 0)
    have h3 := Int.emod_lt_of_pos (pytrunc (h * 36)) (by norm_num : (0 : ℤ) < 36)
    omega
  · have h1 : pytrunc ((999999 / 1000000 : ℚ) * 36) = 35 :=
      pytrunc_nonneg_eq _ 35 (by norm_num) (by norm_num) (by norm_num)
    unfold hue_idx
    rw [h1]
    rfl
  · have h1 : pytrunc ((1 : ℚ) * 36) = 36 :=
      pytrunc_nonneg_eq _ 36 (by norm_num) (by norm_num) (by norm_num)
    unfold hue_idx
    rw [h1]
    rfl

/-- Witness for claim C4 at hue one half. -/
theorem claim4_bucket_range_witness : hue_idx (1 / 2) ≤ 35 :=
  claim4_bucket_range.1 (1 / 2) (by norm_num) (by norm_num)

/-- Claim C5: deleting the pixels whose alpha is below 64 changes nothing in
the classifier output: buckets, grey pool and opaque count coincide. -/
theorem claim5_alpha_filter_invariance (ps : List Pixel) :
    classify (ps.filter fun p => decide (64 ≤ p.a)) = classify ps :=
  classify_filter_aux ps initState

/-- Setting bucket zero of the fresh bucket list gives a cons cell. -/
lemma set0_cons (b : List BPix) :
    (List.replicate 36 ([] : List BPix)).set 0 b = b :: List.replicate 35 [] := by
  rw [List.replicate_succ]
  rfl

lemma getD_set0_zero (b : List BPix) :
    ((List.replicate 36 ([] : List BPix)).set 0 b).getD 0 [] = b := by
  rw [set0_cons]
  rfl

lemma getD_set0_succ (b : List BPix) (i : ℕ) :
    ((List.replicate 36 ([] : List BPix)).set 0 b).getD (i + 1) [] = [] := by
  rw [set0_cons]
  exact getD_replicate_nil 35 i

/-- Full value of the bucket scan on a state whose only non empty bucket is
bucket zero with positive strength. -/
lemma selectLoop_set0 (b : List BPix) (hb : 0 < strength b) :
    selectLoop ((List.replicate 36 []).set 0 b) = ((0 : ℤ), strength b, b.length) := by
  have hub : ∀ t, t < 36 →
      strength (((List.replicate 36 []).set 0 b).getD t []) ≤ strength b := by
    intro t _
    cases t with
    | zero => rw [getD_set0_zero]
    | succ t =>
      rw [getD_set0_succ, strength_nil]
      exact le_of_lt hb
  have hleast : ∀ t, t < 0 →
      strength (((List.replicate 36 []).set 0 b).getD t []) ≠ strength b :=
    fun t ht => absurd ht (Nat.not_lt_zero t)
  have hmain := selectLoop_least ((List.replicate 36 []).set 0 b) (strength b) hb hub 0
    (by norm_num) (by rw [getD_set0_zero]) hleast
  have htot : (selectLoop ((List.replicate 36 []).set 0 b)).2.2 = b.length := by
    rw [selectLoop_total, List.range_succ_eq_map, List.map_cons, List.sum_cons, getD_set0_zero]
    have hz : ((List.map Nat.succ (List.range 35)).map fun i =>
        (((List.replicate 36 ([] : List BPix)).set 0 b).getD i []).length).sum = 0 := by
      apply List.sum_eq_zero
      intro x hx
      rcases List.mem_map.mp hx with ⟨i, hi, rfl⟩
      rcases List.mem_map.mp hi with ⟨j, _, rfl⟩
      rw [getD_set0_succ]
      rfl
    rw [hz]
    exact Nat.add_zero b.length
  have h1 := hmain.1
  have h2 := hmain.2
  exact Prod.ext h1 (Prod.ext h2 htot)

/-- Classification of the single fully opaque pixel (200, 60, 60): moderate
saturation 14/25, lightness 26/51, hue 0, so it lands in bucket 0. -/
lemma classify_c2pixel : classify [⟨200, 60, 60, 255⟩] =
    ⟨(List.replicate 36 []).set 0 [⟨200, 60, 60, 14/25, 26/51⟩], [], 1⟩ := by
  show classifyStep initState ⟨200, 60, 60, 255⟩ = _
  have hr : rgb_to_hls (((200 : ℕ) : ℚ) / 255) (((60 : ℕ) : ℚ) / 255) (((60 : ℕ) : ℚ) / 255)
      = (0, 26/51, 14/25) := by
    norm_num [rgb_to_hls, fmod1, max_def, min_def]
  simp only [classifyStep, hr]
  norm_num [hue_idx, pytrunc, initState]

/-- The prime color of the bucket holding the single pixel (200, 60, 60):
saturation boosted to 21/25, lightness forced to 11/20, truncated channels
(236, 43, 43).  Rounding to nearest would give (237, 44, 44). -/
lemma primeColor_c2 : primeColor [⟨200, 60, 60, 14/25, 26/51⟩] = (236, 43, 43) := by
  have h1 : pytrunc ((116/125 : ℚ) * 255) = 236 :=
    pytrunc_nonneg_eq _ 236 (by norm_num) (by norm_num) (by norm_num)
  have h2 : pytrunc ((43/250 : ℚ) * 255) = 43 :=
    pytrunc_nonneg_eq _ 43 (by norm_num) (by norm_num) (by norm_num)
  have hr : rgb_to_hls ((((200 : ℕ) : ℚ) + 0) / 1 / 255) ((((60 : ℕ) : ℚ) + 0) / 1 / 255)
      ((((60 : ℕ) : ℚ) + 0) / 1 / 255) = (0, 26/51, 14/25) := by
    norm_num [rgb_to_hls, fmod1, max_def, min_def]
  have hh : hls_to_rgb 0 (11/20) (min 1 ((14/25 : ℚ) * (3/2))) = (116/125, 43/250, 43/250) := by
    norm_num [hls_to_rgb, hlsV, fmod1, min_def]
  simp only [primeColor, List.map_cons, List.map_nil, List.sum_cons, List.sum_nil,
    List.length_cons, List.length_nil, zero_add, Nat.cast_one, hr]
  rw [hh, h1, h2]

lemma specRounded_c2 : specPrimeColorRounded [⟨200, 60, 60, 14/25, 26/51⟩] = (237, 44, 44) := by
  have hr : rgb_to_hls ((((200 : ℕ) : ℚ) + 0) / 1 / 255) ((((60 : ℕ) : ℚ) + 0) / 1 / 255)
      ((((60 : ℕ) : ℚ) + 0) / 1 / 255) = (0, 26/51, 14/25) := by
    norm_num [rgb_to_hls, fmod1, max_def, min_def]
  have hh : hls_to_rgb 0 (11/20) (min 1 ((14/25 : ℚ) * (3/2))) = (116/125, 43/250, 43/250) := by
    norm_num [hls_to_rgb, hlsV, fmod1, min_def]
  have h1 : round ((116/125 : ℚ) * 255) = 237 := by
    rw [round_eq]
    apply Int.floor_eq_iff.mpr
    constructor
    · norm_num
    · norm_num
  have h2 : round ((43/250 : ℚ) * 255) = 44 := by
    rw [round_eq]
    apply Int.floor_eq_iff.mpr
    constructor
    · norm_num
    · norm_num
  simp only [specPrimeColorRounded, List.map_cons, List.map_nil, List.sum_cons, List.sum_nil,
    List.length_cons, List.length_nil, zero_add, Nat.cast_one, hr]
  rw [hh, h1, h2]

/-- The scan of the fresh all empty bucket list keeps best at minus one. -/
lemma selectLoop_empty36 : (selectLoop (List.replicate 36 [])).1 = -1 :=
  (selectLoop_neg_iff (List.replicate 36 [])).mpr
    (fun i _ => by rw [getD_replicate_nil, strength_nil])

set_option maxRecDepth 4000 in
/-- Counterexample to claim C2: on the icon consisting of the single opaque
pixel (200, 60, 60) the dominant hue is accepted and the code returns the
truncated channels (236, 43, 43), while rounding each channel to the nearest
integer as the claim states would give (237, 44, 44). -/
theorem claim2_rounding_cex :
    ((selectLoop (classify [⟨200, 60, 60, 255⟩]).buckets).1 ≠ -1 ∧
      ((selectLoop (classify [⟨200, 60, 60, 255⟩]).buckets).2.2 : ℚ) >
        ((classify [⟨200, 60, 60, 255⟩]).total : ℚ) * (3 / 20)) ∧
    (calculate_average_color (classify [⟨200, 60, 60, 255⟩])).1 = some (236, 43, 43) ∧
    specPrimeColorRounded ((classify [⟨200, 60, 60, 255⟩]).buckets.getD
      (selectLoop (classify [⟨200, 60, 60, 255⟩]).buckets).1.toNat []) = (237, 44, 44) ∧
    ((236, 43, 43) : ℤ × ℤ × ℤ) ≠ (237, 44, 44) := by
  have hb : (0 : ℚ) < strength [⟨200, 60, 60, 14/25, 26/51⟩] := by norm_num [strength]
  have hsel := selectLoop_set0 [⟨200, 60, 60, 14/25, 26/51⟩] hb
  rw [classify_c2pixel]
  dsimp only
  rw [hsel]
  refine ⟨⟨by decide, by norm_num⟩, ?_, ?_, by decide⟩
  · have hcond : (selectLoop ((List.replicate 36 []).set 0 [⟨200, 60, 60, 14/25, 26/51⟩])).1 ≠ -1 ∧
        ((selectLoop ((List.replicate 36 []).set 0 [⟨200, 60, 60, 14/25, 26/51⟩])).2.2 : ℚ) >
          ((1 : ℕ) : ℚ) * (3 / 20) := by
      rw [hsel]
      exact ⟨by decide, by norm_num⟩
    unfold calculate_average_color
    rw [if_pos hcond]
    dsimp only
    rw [hsel]
    simp only [Int.toNat_zero]
    rw [getD_set0_zero, primeColor_c2]
  · simp only [Int.toNat_zero]
    rw [getD_set0_zero, specRounded_c2]

/-- Claim C2 amended: whenever the dominant hue is accepted the returned
color is the per channel mean of the best bucket converted to HLS, lightness
overridden to 0.55, saturation multiplied by 1.5 capped at one, converted
back to RGB with each channel truncated toward zero (not rounded to
nearest). -/
theorem claim2_prime_formula_amended (co : ClassOut)
    (h : (selectLoop co.buckets).1 ≠ -1 ∧
      ((selectLoop co.buckets).2.2 : ℚ) > (co.total : ℚ) * (3 / 20)) :
    (calculate_average_color co).1 =
      some (specPrimeColorTruncated (co.buckets.getD (selectLoop co.buckets).1.toNat [])) := by
  unfold calculate_average_color
  rw [if_pos h]
  rfl

/-- Witness for the amended claim C2 at the single pixel (200, 60, 60). -/
theorem claim2_prime_formula_amended_witness :
    (calculate_average_color (classify [⟨200, 60, 60, 255⟩])).1 =
      some (specPrimeColorTruncated ((classify [⟨200, 60, 60, 255⟩]).buckets.getD
        (selectLoop (classify [⟨200, 60, 60, 255⟩]).buckets).1.toNat [])) := by
  apply claim2_prime_formula_amended
  have hb : (0 : ℚ) < strength [⟨200, 60, 60, 14/25, 26/51⟩] := by norm_num [strength]
  have hsel := selectLoop_set0 [⟨200, 60, 60, 14/25, 26/51⟩] hb
  rw [classify_c2pixel]
  dsimp only
  rw [hsel]
  exact ⟨by decide, by norm_num⟩

/-- Classification of the single opaque neutral pixel (128, 128, 128): zero
saturation sends it to the grey pool, every hue bucket stays empty. -/
lemma classify_grey128 : classify [⟨128, 128, 128, 255⟩] =
    ⟨List.replicate 36 [], [⟨128, 128, 128, 128/255⟩], 1⟩ := by
  show classifyStep initState ⟨128, 128, 128, 255⟩ = _
  have hr : rgb_to_hls (((128 : ℕ) : ℚ) / 255) (((128 : ℕ) : ℚ) / 255) (((128 : ℕ) : ℚ) / 255)
      = (0, 128/255, 0) := by
    norm_num [rgb_to_hls, fmod1, max_def, min_def]
  simp only [classifyStep, hr]
  norm_num [initState]

/-- Counterexample to claim C3: the all grey icon made of the single opaque
pixel (128, 128, 128) takes the grey fallback, and the code returns
(165, 165, 165), hex a5a5a5, not the claimed (166, 166, 166), hex a6a6a6:
int(0.65 * 255) truncates 165.75 to 165. -/
theorem claim3_grey_cex :
    (calculate_average_color (classify [⟨128, 128, 128, 255⟩])).1 = some (165, 165, 165) ∧
    hexColor (165, 165, 165) = "#a5a5a5" ∧
    some ((165 : ℤ), (165 : ℤ), (165 : ℤ)) ≠ some ((166 : ℤ), (166 : ℤ), (166 : ℤ)) ∧
    "#a5a5a5" ≠ "#a6a6a6" := by
  refine ⟨?_, by decide, by decide, by decide⟩
  rw [classify_grey128]
  unfold calculate_average_color
  rw [if_neg]
  · unfold greyOrNone
    rw [if_pos (by simp)]
    have hv : pytrunc ((13/20 : ℚ) * 255) = 165 :=
      pytrunc_nonneg_eq _ 165 (by norm_num) (by norm_num) (by norm_num)
    dsimp only
    rw [hv]
  · rintro ⟨hne, _⟩
    exact hne selectLoop_empty36

/-- Claim C3 amended: on the grey fallback path the result is always the
flat grey (165, 165, 165), hex a5a5a5, independent of the grey pool members,
because int(0.65 * 255) truncates 165.75 to 165. -/
theorem claim3_grey_amended (co : ClassOut)
    (h1 : ¬((selectLoop co.buckets).1 ≠ -1 ∧
      ((selectLoop co.buckets).2.2 : ℚ) > (co.total : ℚ) * (3 / 20)))
    (h2 : co.greys ≠ []) :
    calculate_average_color co = (some (165, 165, 165), co.total) ∧
    hexColor (165, 165, 165) = "#a5a5a5" := by
  refine ⟨?_, by decide⟩
  unfold calculate_average_color
  rw [if_neg h1]
  unfold greyOrNone
  rw [if_pos h2]
  have hv : pytrunc ((13/20 : ℚ) * 255) = 165 :=
    pytrunc_nonneg_eq _ 165 (by norm_num) (by norm_num) (by norm_num)
  dsimp only
  rw [hv]

/-- Witness for the amended claim C3 at a grey pool unrelated to any real
pixel values, showing the result ignores the member tuples. -/
theorem claim3_grey_amended_witness :
    calculate_average_color ⟨List.replicate 36 [], [⟨0, 0, 0, 0⟩], 7⟩
      = (some (165, 165, 165), 7) :=
  (claim3_grey_amended ⟨List.replicate 36 [], [⟨0, 0, 0, 0⟩], 7⟩
    (by rintro ⟨hne, _⟩; exact hne selectLoop_empty36) (by simp)).1

/-- Counterexample to claim C7: on the all grey icon every one of the 36
buckets is empty, so all 36 buckets attain the maximal strength 0 (buckets 0
and 1 in particular tie), yet the scan picks no bucket at all (best stays
minus one) instead of the lowest attaining index 0. -/
theorem claim7_tie_cex :
    (∀ i, i < 36 → strength ((classify [⟨128, 128, 128, 255⟩]).buckets.getD i []) ≤
      strength ((classify [⟨128, 128, 128, 255⟩]).buckets.getD 0 [])) ∧
    strength ((classify [⟨128, 128, 128, 255⟩]).buckets.getD 1 []) =
      strength ((classify [⟨128, 128, 128, 255⟩]).buckets.getD 0 []) ∧
    (selectLoop (classify [⟨128, 128, 128, 255⟩]).buckets).1 = -1 ∧
    ((-1 : ℤ) ≠ ((0 : ℕ) : ℤ)) := by
  rw [classify_grey128]
  dsimp only
  refine ⟨?_, ?_, selectLoop_empty36, by decide⟩
  · intro i _
    rw [getD_replicate_nil, getD_replicate_nil]
  · rw [getD_replicate_nil, getD_replicate_nil]

/-- Claim C7 amended: when two or more buckets attain the maximal strength
and that strength is positive (as is the case for every non empty bucket
produced by the classifier), the scan picks the lowest attaining index; in
the degenerate all zero strength state no bucket is picked at all. -/
theorem claim7_tie_amended (B : List (List BPix)) (M : ℚ) (i j k : ℕ)
    (hij : i < j) (hj : j < 36)
    (hiM : strength (B.getD i []) = M) (hjM : strength (B.getD j []) = M)
    (hM : 0 < M)
    (hub : ∀ t, t < 36 → strength (B.getD t []) ≤ M)
    (hk : k < 36) (hkM : strength (B.getD k []) = M)
    (hleast : ∀ t, t < k → strength (B.getD t []) ≠ M) :
    (selectLoop B).1 = (k : ℤ) :=
  (selectLoop_least B M hM hub k hk hkM hleast).1

/-- Witness for the amended claim C7: two buckets of equal positive strength
one, at indices 0 and 1, and the scan picks index 0. -/
theorem claim7_tie_amended_witness :
    (selectLoop [[⟨0, 0, 0, 1, 0⟩], [⟨0, 0, 0, 1, 0⟩]]).1 = ((0 : ℕ) : ℤ) := by
  have hgd0 : ([[⟨0, 0, 0, 1, 0⟩], [⟨0, 0, 0, 1, 0⟩]] :
      List (List BPix)).getD 0 [] = [⟨0, 0, 0, 1, 0⟩] := rfl
  have hgd1 : ([[⟨0, 0, 0, 1, 0⟩], [⟨0, 0, 0, 1, 0⟩]] :
      List (List BPix)).getD 1 [] = [⟨0, 0, 0, 1, 0⟩] := rfl
  have hst : strength [(⟨0, 0, 0, 1, 0⟩ : BPix)] = 1 := by norm_num [strength]
  have hub : ∀ t, t < 36 →
      strength (([[⟨0, 0, 0, 1, 0⟩], [⟨0, 0, 0, 1, 0⟩]] :
        List (List BPix)).getD t []) ≤ 1 := by
    intro t ht
    match t, ht with
    | 0, _ => rw [hgd0, hst]
    | 1, _ => rw [hgd1, hst]
    | (t + 2), _ =>
      have hnil : ([[⟨0, 0, 0, 1, 0⟩], [⟨0, 0, 0, 1, 0⟩]] :
          List (List BPix)).getD (t + 2) [] = [] := by
        apply List.getD_eq_default
        simp
      rw [hnil, strength_nil]
      norm_num
  exact claim7_tie_amended _ 1 0 1 0 (by norm_num) (by norm_num)
    (by rw [hgd0, hst]) (by rw [hgd1, hst]) (by norm_num) hub (by norm_num)
    (by rw [hgd0, hst]) (fun t ht => absurd ht (Nat.not_lt_zero t))

/-- Claim C9: for every classifier output, best_bucket is minus one exactly
when all 36 buckets are empty, and whenever the acceptance condition holds
the selected bucket is non empty, so the average never divides by zero. -/
theorem claim9_best_bucket_safety (ps : List Pixel) :
    ((selectLoop (classify ps).buckets).1 = -1 ↔
      ∀ bkt ∈ (classify ps).buckets, bkt = []) ∧
    ((selectLoop (classify ps).buckets).1 ≠ -1 ∧
        ((selectLoop (classify ps).buckets).2.2 : ℚ) >
          ((classify ps).total : ℚ) * (3 / 20) →
      (classify ps).buckets.getD (selectLoop (classify ps).buckets).1.toNat [] ≠ []) := by
  obtain ⟨hlen, hmem⟩ := classify_bucketsOK ps
  constructor
  · constructor
    · intro hneg bkt hbkt
      rcases List.mem_iff_getElem.mp hbkt with ⟨i, hi, hig⟩
      have hi36 : i < 36 := by omega
      have hstr := (selectLoop_neg_iff (classify ps).buckets).mp hneg i hi36
      have hgd : (classify ps).buckets.getD i [] = bkt := by
        rw [List.getD_eq_getElem _ _ hi, hig]
      rw [hgd] at hstr
      by_contra hne
      have := strength_pos bkt (hmem bkt hbkt) hne
      linarith
    · intro hall
      apply (selectLoop_neg_iff (classify ps).buckets).mpr
      intro i hi36
      have hi : i < (classify ps).buckets.length := by omega
      rw [List.getD_eq_getElem _ _ hi]
      have hmem2 : (classify ps).buckets[i] ∈ (classify ps).buckets := List.getElem_mem hi
      rw [hall _ hmem2, strength_nil]
  · rintro ⟨hne, _⟩
    rcases selectLoop_ne_neg _ hne with ⟨k, _, hbest, hpos⟩
    rw [hbest, Int.toNat_natCast]
    intro hnil
    rw [hnil, strength_nil] at hpos
    exact lt_irrefl 0 hpos

/-- Witness for claim C9 at the single pixel (200, 60, 60): the acceptance
condition holds and the selected bucket is non empty. -/
theorem claim9_best_bucket_safety_witness :
    (classify [⟨200, 60, 60, 255⟩]).buckets.getD
      (selectLoop (classify [⟨200, 60, 60, 255⟩]).buckets).1.toNat [] ≠ [] := by
  apply (claim9_best_bucket_safety [⟨200, 60, 60, 255⟩]).2
  have hb : (0 : ℚ) < strength [⟨200, 60, 60, 14/25, 26/51⟩] := by norm_num [strength]
  have hsel := selectLoop_set0 [⟨200, 60, 60, 14/25, 26/51⟩] hb
  rw [classify_c2pixel]
  dsimp only
  rw [hsel]
  exact ⟨by decide, by norm_num⟩

/-- Classification of one fully opaque pure red pixel appends the tuple
(255, 0, 0, 1, 1/2) to bucket zero and counts one opaque pixel. -/
lemma classifyStep_red (st : ClassOut) :
    classifyStep st ⟨255, 0, 0, 255⟩ =
      { st with total := st.total + 1,
                buckets := st.buckets.set 0
                  (st.buckets.getD 0 [] ++ [⟨255, 0, 0, 1, 1/2⟩]) } := by
  have hr : rgb_to_hls (((255 : ℕ) : ℚ) / 255) (((0 : ℕ) : ℚ) / 255) (((0 : ℕ) : ℚ) / 255)
      = (0, 1/2, 1) := by
    norm_num [rgb_to_hls, fmod1, max_def, min_def]
  simp only [classifyStep, hr]
  norm_num [hue_idx, pytrunc]

/-- Folding the classifier over an all red pixel list grows the replicated
red bucket zero one tuple per pixel. -/
lemma classify_red_aux : ∀ (ps : List Pixel), (∀ p ∈ ps, p = ⟨255, 0, 0, 255⟩) → ∀ (m : ℕ),
    ps.foldl classifyStep
      ⟨(List.replicate 36 []).set 0 (List.replicate m ⟨255, 0, 0, 1, 1/2⟩), [], m⟩
      = ⟨(List.replicate 36 []).set 0 (List.replicate (m + ps.length) ⟨255, 0, 0, 1, 1/2⟩),
          [], m + ps.length⟩ := by
  intro ps
  induction ps with
  | nil => intro _ m; simp
  | cons p ps ih =>
    intro hall m
    have hp : p = ⟨255, 0, 0, 255⟩ := hall p (List.mem_cons_self p ps)
    subst hp
    rw [List.foldl_cons, classifyStep_red]
    have hbk : (((List.replicate 36 ([] : List BPix)).set 0
          (List.replicate m ⟨255, 0, 0, 1, 1/2⟩)).set 0
        (((List.replicate 36 ([] : List BPix)).set 0
          (List.replicate m ⟨255, 0, 0, 1, 1/2⟩)).getD 0 [] ++ [⟨255, 0, 0, 1, 1/2⟩]))
        = (List.replicate 36 []).set 0 (List.replicate (m + 1) ⟨255, 0, 0, 1, 1/2⟩) := by
      rw [getD_set0_zero, List.set_set, ← List.replicate_succ']
    show ps.foldl classifyStep
        ⟨(((List.replicate 36 ([] : List BPix)).set 0
            (List.replicate m ⟨255, 0, 0, 1, 1/2⟩)).set 0
          (((List.replicate 36 ([] : List BPix)).set 0
            (List.replicate m ⟨255, 0, 0, 1, 1/2⟩)).getD 0 [] ++ [⟨255, 0, 0, 1, 1/2⟩])),
          [], m + 1⟩ = _
    rw [hbk, List.length_cons,
      show m + (ps.length + 1) = m + 1 + ps.length by omega]
    exact ih (fun q hq => hall q (List.mem_cons_of_mem _ hq)) (m + 1)

/-- Classification of any non empty all red pixel list. -/
lemma classify_red (ps : List Pixel) (h : ∀ p ∈ ps, p = ⟨255, 0, 0, 255⟩) :
    classify ps = ⟨(List.replicate 36 []).set 0
      (List.replicate ps.length ⟨255, 0, 0, 1, 1/2⟩), [], ps.length⟩ := by
  have h0 : initState = (⟨(List.replicate 36 []).set 0
      (List.replicate 0 ⟨255, 0, 0, 1, 1/2⟩), [], 0⟩ : ClassOut) := rfl
  unfold classify
  rw [h0]
  have h2 := classify_red_aux ps h 0
  simpa using h2

/-- Strength of the replicated red bucket is the pixel count. -/
lemma strength_replicate_red (n : ℕ) :
    strength (List.replicate n ⟨255, 0, 0, 1, 1/2⟩) = n := by
  simp [strength, List.map_replicate, List.sum_replicate]

/-- Prime color of the replicated red bucket: averages (255, 0, 0), hue 0,
saturation boosted to one, lightness forced to 11/20, truncated channels
(255, 25, 25). -/
lemma primeColor_red (n : ℕ) (hn : n ≠ 0) :
    primeColor (List.replicate n ⟨255, 0, 0, 1, 1/2⟩) = (255, 25, 25) := by
  have hne : ((n : ℚ)) ≠ 0 := Nat.cast_ne_zero.mpr hn
  have h1 : pytrunc ((1 : ℚ) * 255) = 255 :=
    pytrunc_nonneg_eq _ 255 (by norm_num) (by norm_num) (by norm_num)
  have h2 : pytrunc ((1/10 : ℚ) * 255) = 25 :=
    pytrunc_nonneg_eq _ 25 (by norm_num) (by norm_num) (by norm_num)
  have hr : rgb_to_hls ((255 : ℚ) / 255) 0 0 = (0, 1/2, 1) := by
    norm_num [rgb_to_hls, fmod1, max_def, min_def]
  have hh : hls_to_rgb 0 (11/20) (min 1 ((1 : ℚ) * (3/2))) = (1, 1/10, 1/10) := by
    norm_num [hls_to_rgb, hlsV, fmod1, min_def]
  simp only [primeColor, List.map_replicate, List.sum_replicate, List.length_replicate,
    nsmul_eq_mul, Nat.cast_ofNat, Nat.cast_zero, mul_zero, zero_div,
    mul_div_cancel_left₀ _ hne]
  rw [hr, hh, h1, h2]

set_option maxRecDepth 4000 in
/-- Counterexample to claim C8: on an all red icon bucket 0 dominates and
coverage passes, but the recorded hex is ff1919, not the claimed e62929:
HLS to RGB at h=0, l=0.55, s=1.0 gives channels (1, 0.1, 0.1) and int()
truncation yields (255, 25, 25). -/
theorem claim8_red_cex :
    (calculate_average_color (classify [⟨255, 0, 0, 255⟩])).1 = some (255, 25, 25) ∧
    hexColor (255, 25, 25) = "#ff1919" ∧ "#ff1919" ≠ "#e62929" := by
  refine ⟨?_, by decide, by decide⟩
  have hcl := classify_red [⟨255, 0, 0, 255⟩] (by intro p hp; simpa using hp)
  rw [hcl]
  have hb : (0 : ℚ) < strength (List.replicate (1 : ℕ) ⟨255, 0, 0, 1, 1/2⟩) := by
    rw [strength_replicate_red]
    norm_num
  have hsel := selectLoop_set0 (List.replicate (1 : ℕ) ⟨255, 0, 0, 1, 1/2⟩) hb
  have hcond : (selectLoop ((List.replicate 36 []).set 0
        (List.replicate (1 : ℕ) ⟨255, 0, 0, 1, 1/2⟩))).1 ≠ -1 ∧
      ((selectLoop ((List.replicate 36 []).set 0
        (List.replicate (1 : ℕ) ⟨255, 0, 0, 1, 1/2⟩))).2.2 : ℚ) >
        ((1 : ℕ) : ℚ) * (3 / 20) := by
    rw [hsel]
    refine ⟨by decide, ?_⟩
    rw [List.length_replicate]
    norm_num
  show (calculate_average_color ⟨(List.replicate 36 []).set 0
      (List.replicate (1 : ℕ) ⟨255, 0, 0, 1, 1/2⟩), [], 1⟩).1 = some (255, 25, 25)
  unfold calculate_average_color
  rw [if_pos hcond]
  dsimp only
  rw [hsel]
  simp only [Int.toNat_zero]
  rw [getD_set0_zero, primeColor_red 1 (by norm_num)]

set_option maxRecDepth 4000 in
/-- Claim C8 amended: for every non empty icon all of whose pixels are fully
opaque pure red (255, 0, 0), bucket 0 is dominant, the coverage check passes
(100 percent exceeds 15 percent), and the recorded hex is ff1919 (the exact
value of truncated HLS to RGB at h=0, l=0.55, s=1.0), not e62929. -/
theorem claim8_pure_red_scenario (ps : List Pixel) (hne : ps ≠ [])
    (hall : ∀ p ∈ ps, p = ⟨255, 0, 0, 255⟩) :
    (selectLoop (classify ps).buckets).1 = 0 ∧
    ((selectLoop (classify ps).buckets).2.2 : ℚ) >
      ((classify ps).total : ℚ) * (3 / 20) ∧
    (calculate_average_color (classify ps)).1 = some (255, 25, 25) ∧
    hexColor (255, 25, 25) = "#ff1919" := by
  have hcl := classify_red ps hall
  have hn : ps.length ≠ 0 := fun h => hne (List.length_eq_zero.mp h)
  have hnQ : (0 : ℚ) < (ps.length : ℚ) :=
    Nat.cast_pos.mpr (Nat.pos_of_ne_zero hn)
  have hb : (0 : ℚ) < strength (List.replicate ps.length ⟨255, 0, 0, 1, 1/2⟩) := by
    rw [strength_replicate_red]
    exact hnQ
  have hsel := selectLoop_set0 (List.replicate ps.length ⟨255, 0, 0, 1, 1/2⟩) hb
  have hcov : ((selectLoop ((List.replicate 36 []).set 0
        (List.replicate ps.length ⟨255, 0, 0, 1, 1/2⟩))).2.2 : ℚ) >
      ((ps.length : ℕ) : ℚ) * (3 / 20) := by
    rw [hsel]
    dsimp only
    rw [List.length_replicate]
    linarith
  have hb0 : (selectLoop ((List.replicate 36 []).set 0
      (List.replicate ps.length ⟨255, 0, 0, 1, 1/2⟩))).1 = 0 := by rw [hsel]
  rw [hcl]
  dsimp only
  refine ⟨hb0, hcov, ?_, by decide⟩
  · unfold calculate_average_color
    rw [if_pos ⟨by rw [hb0]; decide, hcov⟩]
    dsimp only
    rw [hsel]
    simp only [Int.toNat_zero]
    rw [getD_set0_zero, primeColor_red ps.length hn]

/-- Witness for the amended claim C8 at a two pixel pure red icon. -/
theorem claim8_pure_red_scenario_witness :
    (calculate_average_color (classify [⟨255, 0, 0, 255⟩, ⟨255, 0, 0, 255⟩])).1
      = some (255, 25, 25) :=
  (claim8_pure_red_scenario [⟨255, 0, 0, 255⟩, ⟨255, 0, 0, 255⟩] (by simp)
    (by intro p hp; rcases List.mem_cons.mp hp with h | h
        · exact h
        · simpa using h)).2.2.1

/-- Unfolding equations for insertColor on a cons cell. -/
lemma insertColor_cons_pos (k v k2 v2 : String) (rest : List (String × String))
    (h : k2 = k) : insertColor ((k2, v2) :: rest) k v = (k, v) :: rest := by
  simp only [insertColor]
  rw [if_pos h]

lemma insertColor_cons_neg (k v k2 v2 : String) (rest : List (String × String))
    (h : ¬ k2 = k) :
    insertColor ((k2, v2) :: rest) k v = (k2, v2) :: insertColor rest k v := by
  simp only [insertColor]
  rw [if_neg h]

/-- Membership in the keys after a dict style insertion. -/
lemma mem_keys_insertColor (c : List (String × String)) (k v x : String) :
    x ∈ (insertColor c k v).map Prod.fst ↔ x = k ∨ x ∈ c.map Prod.fst := by
  induction c with
  | nil => simp [insertColor]
  | cons p rest ih =>
    obtain ⟨k2, v2⟩ := p
    by_cases h : k2 = k
    · rw [insertColor_cons_pos k v k2 v2 rest h]
      subst h
      simp only [List.map_cons, List.mem_cons]
      tauto
    · rw [insertColor_cons_neg k v k2 v2 rest h]
      simp only [List.map_cons, List.mem_cons, ih]
      tauto

/-- Dict style insertion preserves distinctness of the keys. -/
lemma keys_insertColor_nodup (c : List (String × String)) (k v : String)
    (h : (c.map Prod.fst).Nodup) : ((insertColor c k v).map Prod.fst).Nodup := by
  induction c with
  | nil => simp [insertColor]
  | cons p rest ih =>
    obtain ⟨k2, v2⟩ := p
    rw [List.map_cons, List.nodup_cons] at h
    by_cases hp : k2 = k
    · rw [insertColor_cons_pos k v k2 v2 rest hp]
      rw [List.map_cons, List.nodup_cons]
      exact ⟨by rw [← hp]; exact h.1, h.2⟩
    · rw [insertColor_cons_neg k v k2 v2 rest hp]
      rw [List.map_cons, List.nodup_cons]
      refine ⟨?_, ih h.2⟩
      intro hmem
      rcases (mem_keys_insertColor rest k v k2).mp hmem with h2 | h2
      · exact hp h2
      · exact h.1 h2

/-- An out of bounds item only appends its diagnostic. -/
lemma processItem_oob (sp : Sprite) (acc : List (String × String) × List Diag)
    (item : Item) (h : sp.height < (item.iconIndex / 23) * 64 + 64) :
    processItem sp acc item =
      (acc.1, acc.2 ++ [Diag.outOfBounds item.iconIndex item.name sp.height]) := by
  simp only [processItem]
  rw [if_pos h]

/-- An in bounds item whose extraction yields no result only appends its
diagnostic. -/
lemma processItem_none (sp : Sprite) (acc : List (String × String) × List Diag)
    (item : Item) (h : ¬ sp.height < (item.iconIndex / 23) * 64 + 64) (t : ℕ)
    (h2 : calculate_average_color (classify (sp.cropPixels ((item.iconIndex % 23) * 64)
      ((item.iconIndex / 23) * 64))) = (none, t)) :
    processItem sp acc item =
      (acc.1, acc.2 ++ [Diag.noValidPixels item.name item.id item.iconIndex t]) := by
  simp only [processItem]
  rw [if_neg h, h2]

/-- One walker step preserves distinctness of the recorded item ids. -/
lemma keys_processItem_nodup (sp : Sprite) (acc : List (String × String) × List Diag)
    (item : Item) (h : (acc.1.map Prod.fst).Nodup) :
    ((processItem sp acc item).1.map Prod.fst).Nodup := by
  simp only [processItem]
  split
  · exact h
  · split
    · exact keys_insertColor_nodup acc.1 item.id _ h
    · exact h

/-- One walker step never introduces a key different from the id of the
item it processes. -/
lemma not_mem_keys_processItem (sp : Sprite) (acc : List (String × String) × List Diag)
    (item : Item) (x : String) (hx : x ∉ acc.1.map Prod.fst) (hid : item.id ≠ x) :
    x ∉ (processItem sp acc item).1.map Prod.fst := by
  simp only [processItem]
  split
  · exact hx
  · split
    · intro hmem
      rcases (mem_keys_insertColor acc.1 item.id _ x).mp hmem with rfl | h2
      · exact hid rfl
      · exact hx h2
    · exact hx

lemma walkItems_cons (sp : Sprite) (it : Item) (items : List Item)
    (acc : List (String × String) × List Diag) :
    walkItems sp (it :: items) acc = walkItems sp items (processItem sp acc it) := rfl

lemma walkItems_append (sp : Sprite) (l1 l2 : List Item)
    (acc : List (String × String) × List Diag) :
    walkItems sp (l1 ++ l2) acc = walkItems sp l2 (walkItems sp l1 acc) := by
  simp [walkItems, List.foldl_append]

/-- The walker preserves distinctness of the recorded item ids. -/
lemma walkItems_keys_nodup (sp : Sprite) (items : List Item) :
    ∀ acc : List (String × String) × List Diag, (acc.1.map Prod.fst).Nodup →
      ((walkItems sp items acc).1.map Prod.fst).Nodup := by
  induction items with
  | nil => intro acc h; exact h
  | cons it items ih =>
    intro acc h
    rw [walkItems_cons]
    exact ih _ (keys_processItem_nodup sp acc it h)

/-- The walker never records a key that is not the id of one of the items
it processes. -/
lemma not_mem_keys_walkItems (sp : Sprite) (items : List Item) (x : String)
    (hall : ∀ it ∈ items, it.id ≠ x) :
    ∀ acc : List (String × String) × List Diag, x ∉ acc.1.map Prod.fst →
      x ∉ (walkItems sp items acc).1.map Prod.fst := by
  induction items with
  | nil => intro acc h; exact h
  | cons it items ih =>
    intro acc h
    rw [walkItems_cons]
    exact ih (fun q hq => hall q (List.mem_cons_of_mem it hq)) _
      (not_mem_keys_processItem sp acc it x h (hall it (List.mem_cons_self it items)))

/-- Claim C6: per item failures never interrupt the walker: an out of bounds
cell or an extraction with no result only appends a diagnostic and processing
continues with the remaining items on an unchanged mapping; under distinct
manifest ids a failing item never appears in the output mapping; and the
mapping always has distinct keys (at most one entry per id). -/
theorem claim6_walker_error_handling (sp : Sprite) (item : Item) (rest : List Item)
    (items : List Item) (acc : List (String × String) × List Diag) :
    (sp.height < (item.iconIndex / 23) * 64 + 64 →
      walkItems sp (item :: rest) acc = walkItems sp rest
        (acc.1, acc.2 ++ [Diag.outOfBounds item.iconIndex item.name sp.height])) ∧
    (¬ sp.height < (item.iconIndex / 23) * 64 + 64 →
      ∀ t : ℕ, calculate_average_color (classify (sp.cropPixels ((item.iconIndex % 23) * 64)
          ((item.iconIndex / 23) * 64))) = (none, t) →
      walkItems sp (item :: rest) acc = walkItems sp rest
        (acc.1, acc.2 ++ [Diag.noValidPixels item.name item.id item.iconIndex t])) ∧
    ((items.map Item.id).Nodup → item ∈ items →
      (sp.height < (item.iconIndex / 23) * 64 + 64 ∨
        (calculate_average_color (classify (sp.cropPixels ((item.iconIndex % 23) * 64)
          ((item.iconIndex / 23) * 64)))).1 = none) →
      item.id ∉ (mainColors sp items).1.map Prod.fst) ∧
    ((mainColors sp items).1.map Prod.fst).Nodup := by
  refine ⟨?_, ?_, ?_, ?_⟩
  · intro h
    rw [walkItems_cons, processItem_oob sp acc item h]
  · intro h t h2
    rw [walkItems_cons, processItem_none sp acc item h t h2]
  · intro hnodup hmem hfail
    rcases List.append_of_mem hmem with ⟨s, t2, rfl⟩
    have hmap : (s ++ item :: t2).map Item.id
        = s.map Item.id ++ item.id :: t2.map Item.id := by simp
    rw [hmap] at hnodup
    obtain ⟨hnd1, hnd2, hdisj⟩ := List.nodup_append.mp hnodup
    have hnotins : item.id ∉ s.map Item.id :=
      fun hmem2 => hdisj hmem2 (List.mem_cons_self _ _)
    have hnotint : item.id ∉ t2.map Item.id := (List.nodup_cons.mp hnd2).1
    unfold mainColors
    rw [walkItems_append, walkItems_cons]
    have h1 : item.id ∉ (walkItems sp s ([], [])).1.map Prod.fst := by
      apply not_mem_keys_walkItems sp s item.id ?_ ([], []) (by simp)
      intro it hit heq
      exact hnotins (heq ▸ List.mem_map_of_mem Item.id hit)
    have h2 : (processItem sp (walkItems sp s ([], [])) item).1
        = (walkItems sp s ([], [])).1 := by
      rcases hfail with hoob | hnone
      · rw [processItem_oob _ _ _ hoob]
      · have hpair : calculate_average_color (classify (sp.cropPixels
            ((item.iconIndex % 23) * 64) ((item.iconIndex / 23) * 64)))
            = (none, (calculate_average_color (classify (sp.cropPixels
              ((item.iconIndex % 23) * 64) ((item.iconIndex / 23) * 64)))).2) :=
          Prod.ext hnone rfl
        by_cases hoob : sp.height < (item.iconIndex / 23) * 64 + 64
        · rw [processItem_oob _ _ _ hoob]
        · rw [processItem_none _ _ _ hoob _ hpair]
    apply not_mem_keys_walkItems sp t2 item.id ?_ _ (by rw [h2]; exact h1)
    intro it hit heq
    exact hnotint (heq ▸ List.mem_map_of_mem Item.id hit)
  · unfold mainColors
    apply walkItems_keys_nodup
    simp

/-- Witness for claim C6: an atlas of height zero makes every cell out of
bounds, so the single manifest item is absent from the output mapping. -/
theorem claim6_walker_error_handling_witness :
    (⟨"a", "A", 0⟩ : Item).id ∉
      (mainColors ⟨0, fun _ _ => []⟩ [⟨"a", "A", 0⟩]).1.map Prod.fst :=
  (claim6_walker_error_handling ⟨0, fun _ _ => []⟩ ⟨"a", "A", 0⟩ [] [⟨"a", "A", 0⟩]
    ([], [])).2.2.1 (by simp) (by simp) (Or.inl (by norm_num))

/-- The membership test of the patch loop: the item has an id and that id is
a key of the mappings dict. -/
def isMapped (m : List (String × ℤ)) (it : JItem β) : Bool :=
  match it.id with
  | none => false
  | some k => (lookupKey m k).isSome

lemma patchItem_snd (m : List (String × ℤ)) (it : JItem β) :
    (patchItem m it).2 = if isMapped m it then 1 else 0 := by
  unfold patchItem isMapped
  cases h : it.id with
  | none => rfl
  | some k =>
    cases h2 : lookupKey m k with
    | none => simp [h2]
    | some v => simp [h2]

/-- The patch loop maps every item through patchItem and counts the mapped
ones. -/
lemma patchItems_spec (m : List (String × ℤ)) (items : List (JItem β)) :
    patchItems m items
      = (items.map (fun it => (patchItem m it).1), items.countP (isMapped m)) := by
  suffices h : ∀ (acc : List (JItem β) × ℕ),
      items.foldl (fun acc it =>
        let r := patchItem m it
        (acc.1 ++ [r.1], acc.2 + r.2)) acc
      = (acc.1 ++ items.map (fun it => (patchItem m it).1),
         acc.2 + items.countP (isMapped m)) by
    have h2 := h ([], 0)
    simpa [patchItems] using h2
  induction items with
  | nil => intro acc; simp
  | cons it items ih =>
    intro acc
    rw [List.foldl_cons]
    dsimp only
    rw [ih]
    rw [List.map_cons, List.countP_cons, patchItem_snd]
    refine Prod.ext ?_ ?_
    · simp
    · by_cases hm : isMapped m it
      · simp [hm]
        omega
      · simp [hm]

/-- Claim C10: the patch script changes only the iconIndex of items whose id
is a mapped key: unmapped items are returned unchanged, mapped items keep id
and the rest of their payload, updated_count counts exactly the mapped
items, and everything outside the items list is untouched. -/
theorem claim10_patch_frame {α β : Type} (m : List (String × ℤ)) (d : Doc α β) :
    (patchDoc m d).1.other = d.other ∧
    (patchDoc m d).1.items = d.items.map (fun it => (patchItem m it).1) ∧
    (∀ it : JItem β, isMapped m it = false → (patchItem m it).1 = it) ∧
    (∀ (it : JItem β) (k : String) (v : ℤ), it.id = some k → lookupKey m k = some v →
      (patchItem m it).1.id = it.id ∧ (patchItem m it).1.rest = it.rest ∧
        (patchItem m it).1.iconIndex = some v) ∧
    (patchDoc m d).2 = d.items.countP (isMapped m) := by
  refine ⟨rfl, ?_, ?_, ?_, ?_⟩
  · show (patchItems m d.items).1 = _
    rw [patchItems_spec]
  · intro it hmap
    cases h : it.id with
    | none => simp [patchItem, h]
    | some k =>
      cases h2 : lookupKey m k with
      | none => simp [patchItem, h, h2]
      | some v =>
        exfalso
        unfold isMapped at hmap
        rw [h] at hmap
        simp [h2] at hmap
  · intro it k v hid hlook
    simp only [patchItem, hid, hlook]
    exact ⟨trivial, trivial, trivial⟩
  · show (patchItems m d.items).2 = _
    rw [patchItems_spec]

/-- Witness for claim C10: with the mappings dict of the script, the item
with id grating-crystal gets iconIndex 11 and keeps its other fields. -/
theorem claim10_patch_frame_witness :
    (patchItem mappings (⟨some "grating-crystal", some 3, 7⟩ : JItem ℕ)).1.id
        = some "grating-crystal" ∧
    (patchItem mappings (⟨some "grating-crystal", some 3, 7⟩ : JItem ℕ)).1.rest = 7 ∧
    (patchItem mappings (⟨some "grating-crystal", some 3, 7⟩ : JItem ℕ)).1.iconIndex
        = some 11 :=
  (claim10_patch_frame mappings (⟨[⟨some "grating-crystal", some 3, 7⟩], 9⟩ : Doc ℕ ℕ)).2.2.2.1
    ⟨some "grating-crystal", some 3, 7⟩ "grating-crystal" 11 rfl (by decide)
